import Mathlib

/-!
Verification of the morgan validator runtime against its specification.

The Rust sources are shallowly embedded: `u64` machine integers become `Nat`
with explicit wrap-around `% 2^64` where the source arithmetic can overflow
or underflow, fallible functions return `Except`, and the mutable `Bank`
becomes explicit state passing over a `Bank` record.  Components of the
repository that are referenced by the sources but whose own code is not
available (the fork-indexed accounts store, the status cache, the fee
calculator, the slot_hashes syscall encoding) are modelled from the
specification; each such definition carries a doc comment that says so.
-/

namespace Morgan

/-- Width of a `u64` machine integer: arithmetic in the source wraps mod `2^64`. -/
def W : Nat := 2 ^ 64

/-- Wrapping `u64` addition (`a + b` in release-mode Rust). -/
def wrapAdd (a b : Nat) : Nat := (a + b) % W

/-- Wrapping `u64` subtraction (`a - b` in release-mode Rust). -/
def wrapSub (a b : Nat) : Nat := (a + (W - b % W)) % W

theorem wrapAdd_eq_add (a b : Nat) (h : a + b < W) : wrapAdd a b = a + b := by
  simp [wrapAdd, Nat.mod_eq_of_lt h]

theorem wrapSub_eq_sub (a b : Nat) (ha : a < W) (hba : b ≤ a) : wrapSub a b = a - b := by
  have hb : b < W := lt_of_le_of_lt hba ha
  have hbW : b % W = b := Nat.mod_eq_of_lt hb
  have h1 : a + (W - b) = (a - b) + W := by omega
  have h2 : a - b < W := lt_of_le_of_lt (Nat.sub_le a b) ha
  simp [wrapSub, hbW, h1, Nat.add_mod_right, Nat.mod_eq_of_lt h2]

/-- Association-list lookup: the first binding of the key wins.  This models
the map interfaces (`HashMap::get`, account lookup) used by the sources. -/
def alookup {κ α : Type} [DecidableEq κ] : List (κ × α) → κ → Option α
  | [], _ => none
  | (k, v) :: t, key => if k = key then some v else alookup t key

/-- Association-list update: replace the first binding of the key, or append
a new binding.  Models `HashMap::insert` / `store`. -/
def astore {κ α : Type} [DecidableEq κ] : List (κ × α) → κ → α → List (κ × α)
  | [], key, v => [(key, v)]
  | (k, w) :: t, key, v => if k = key then (key, v) :: t else (k, w) :: astore t key v

/-- Association-list removal of every binding of the key.  Models `HashMap::remove`. -/
def aremove {κ α : Type} [DecidableEq κ] : List (κ × α) → κ → List (κ × α)
  | [], _ => []
  | (k, w) :: t, key => if k = key then aremove t key else (k, w) :: aremove t key

/-- Modify the binding of a key if present, leave the list unchanged otherwise.
Models `HashMap::entry(k).and_modify(f)`. -/
def amodify {κ α : Type} [DecidableEq κ] (f : α → α) : List (κ × α) → κ → List (κ × α)
  | [], _ => []
  | (k, w) :: t, key => if k = key then (k, f w) :: t else (k, w) :: amodify f t key

theorem alookup_astore_self {κ α : Type} [DecidableEq κ]
    (l : List (κ × α)) (k : κ) (v : α) : alookup (astore l k v) k = some v := by
  induction l with
  | nil => simp [astore, alookup]
  | cons hd t ih =>
    obtain ⟨k0, v0⟩ := hd
    by_cases h : k0 = k
    · simp [astore, h, alookup]
    · simp [astore, h, alookup, ih]

theorem alookup_astore_ne {κ α : Type} [DecidableEq κ]
    (l : List (κ × α)) (k k0 : κ) (v : α) (h : k0 ≠ k) :
    alookup (astore l k v) k0 = alookup l k0 := by
  have hne : ¬ k = k0 := fun h1 => h h1.symm
  induction l with
  | nil => simp [astore, alookup, hne]
  | cons hd t ih =>
    obtain ⟨k1, v1⟩ := hd
    by_cases h1 : k1 = k
    · subst h1
      simp [astore, alookup, hne]
    · by_cases h2 : k1 = k0
      · subst h2
        simp [astore, alookup, h1, hne]
      · simp [astore, alookup, h1, h2, ih]

theorem alookup_aremove_self {κ α : Type} [DecidableEq κ]
    (l : List (κ × α)) (k : κ) : alookup (aremove l k) k = none := by
  induction l with
  | nil => simp [aremove, alookup]
  | cons hd t ih =>
    obtain ⟨k0, v0⟩ := hd
    by_cases h : k0 = k <;> simp [aremove, h, alookup, ih]

/-- `TransactionError` from `morgan_sdk::transaction` (`src/sdk`): the
per-transaction failure taxonomy. -/
inductive TransactionError : Type where
  | AccountNotFound
  | AccountInUse
  | AccountLoadedTwice
  | InsufficientFundsForFee
  | InvalidAccountForFee
  | InvalidAccountIndex
  | BlockhashNotFound
  | DuplicateSignature
  | InstructionError (index : Nat) (code : Nat)
  deriving DecidableEq, Repr

/-- `Result<()>` of a transaction, as used throughout `bank.rs`. -/
abbrev TxResult : Type := Except TransactionError Unit

instance {ε α : Type} [DecidableEq ε] [DecidableEq α] : DecidableEq (Except ε α) :=
  fun a b =>
  match a, b with
  | .ok x, .ok y =>
    match decEq x y with
    | .isTrue h => .isTrue (h ▸ rfl)
    | .isFalse h => .isFalse (fun hh => h (Except.ok.inj hh))
  | .ok _, .error _ => .isFalse (fun h => Except.noConfusion h)
  | .error _, .ok _ => .isFalse (fun h => Except.noConfusion h)
  | .error e, .error f =>
    match decEq e f with
    | .isTrue h => .isTrue (h ▸ rfl)
    | .isFalse h => .isFalse (fun hh => h (Except.error.inj hh))

/-- Public keys are 32-byte opaque identifiers; modelled as `Nat`. -/
abbrev Pubkey : Type := Nat

/-- Hashes are 32-byte digests; modelled as `Nat`, with `0` standing for
`Hash::default()`. -/
abbrev Hash : Type := Nat

/-- `Account` from `src/sdk/src/account.rs`: `difs` is the principal balance
and `difs1` the parallel reputation counter (`reputations` in the spec). -/
structure Account : Type where
  difs : Nat
  data : List Nat
  owner : Pubkey
  executable : Bool
  difs1 : Nat
  deriving DecidableEq, Repr

instance : Inhabited Account := ⟨⟨0, [], 0, false, 0⟩⟩

/-- `Account::default()`. -/
def Account.default : Account := ⟨0, [], 0, false, 0⟩

/-- Message of a transaction: the fields of `morgan_sdk::message::Message`
used by `bank.rs` (account keys, recent blockhash, number of required
signatures). -/
structure Message : Type where
  account_keys : List Pubkey
  recent_blockhash : Hash
  num_required_signatures : Nat
  deriving DecidableEq, Repr

/-- Transaction: signatures plus message (`morgan_sdk::transaction`). -/
structure Transaction : Type where
  signatures : List Nat
  message : Message
  deriving DecidableEq, Repr

/-- Modelled from the spec: `FeeCalculator::calculate_fee` is not under
`src/`; §4.4 defines `fee = difs_per_signature × num_signatures`. -/
def calculate_fee (difs_per_signature : Nat) (message : Message) : Nat :=
  difs_per_signature * message.num_required_signatures

/-- The `Bank` of `src/runtime/src/bank.rs`, restricted to the fields the
verified claims are about.  The fork-indexed accounts store (its code is not
under `src/`) is modelled from the spec of §4.3: reads walk parent lanes
first-hit, writes go to the bank's own slot lane, so the bank carries its own
slot's writes (`slotWrites`) and the flattened ancestor view
(`parentAccounts`).  The status cache (§4.2, also not under `src/`) is a map
`(blockhash, signature) → (slot, result)`.  The stakes cache, epoch schedule
and message processor are not modelled — no claim below depends on them. -/
structure Bank : Type where
  slotWrites : List (Pubkey × Account)
  parentAccounts : List (Pubkey × Account)
  status_cache : List ((Hash × Nat) × (Nat × TxResult))
  blockhash_queue : List Hash
  hash : Hash
  parent_hash : Hash
  transaction_count : Nat
  tick_height : Nat
  max_tick_height : Nat
  ticks_per_slot : Nat
  slot : Nat
  bank_height : Nat
  collector_id : Pubkey
  difs_per_signature : Nat
  is_delta : Bool
  deriving DecidableEq, Repr

/-- `Bank::default()`, as produced by `#[derive(Default)]`. -/
def Bank.default : Bank :=
  { slotWrites := [], parentAccounts := [], status_cache := [], blockhash_queue := []
    hash := 0, parent_hash := 0, transaction_count := 0, tick_height := 0
    max_tick_height := 0, ticks_per_slot := 0, slot := 0, bank_height := 0
    collector_id := 0, difs_per_signature := 0, is_delta := false }

/-- `Bank::get_account`: `accounts.load_slow(ancestors, pubkey)` — the
ancestor-walk read of §4.3: the bank's own slot lane shadows ancestors. -/
def Bank.get_account (b : Bank) (pubkey : Pubkey) : Option Account :=
  match alookup b.slotWrites pubkey with
  | some a => some a
  | none => alookup b.parentAccounts pubkey

/-- `Bank::store`: `accounts.store_slow(self.slot(), pubkey, account)` — a
write into the bank's own slot lane.  (The source also refreshes the stakes
cache for vote/stake-owned accounts; the stakes cache is not part of this
`Bank` model and is verified separately on `Stakes`.) -/
def Bank.store (b : Bank) (pubkey : Pubkey) (account : Account) : Bank :=
  { b with slotWrites := astore b.slotWrites pubkey account }

/-- `Bank::read_balance` / `Bank::get_balance`. -/
def Bank.get_balance (b : Bank) (pubkey : Pubkey) : Nat :=
  (b.get_account pubkey).map Account.difs |>.getD 0

/-- `Bank::withdraw` (bank.rs lines 834-849).  The `difs` check guards the
principal balance only; the `difs1 -= difs` subtraction is unguarded `u64`
arithmetic and is therefore modelled as wrapping. -/
def Bank.withdraw (b : Bank) (pubkey : Pubkey) (difs : Nat) :
    Except TransactionError Bank :=
  match b.get_account pubkey with
  | some account =>
    if difs > account.difs then
      .error .InsufficientFundsForFee
    else
      .ok (b.store pubkey
        { account with difs := account.difs - difs, difs1 := wrapSub account.difs1 difs })
  | none => .error .AccountNotFound

/-- `Bank::deposit` (bank.rs lines 851-856): unguarded `u64` additions. -/
def Bank.deposit (b : Bank) (pubkey : Pubkey) (difs : Nat) : Bank :=
  let account := (b.get_account pubkey).getD Account.default
  b.store pubkey
    { account with difs := wrapAdd account.difs difs, difs1 := wrapAdd account.difs1 difs }

/-- `Bank::can_commit` (bank.rs lines 348-354). -/
def Bank.can_commit (result : TxResult) : Bool :=
  match result with
  | .ok _ => true
  | .error (.InstructionError _ _) => true
  | .error _ => false

/-- `Bank::update_transaction_statuses` (bank.rs lines 356-368): for each
transaction whose result is committable and which has at least one signature,
insert `(recent_blockhash, signatures[0]) ↦ (slot, result)` into the status
cache.  The cache's own `insert` (not under `src/`) is modelled from the spec
of §4.2 as a map insertion. -/
def Bank.update_transaction_statuses (b : Bank) (txs : List Transaction)
    (res : List TxResult) : Bank :=
  let cache := (txs.zip res).foldl
    (fun cache p =>
      if Bank.can_commit p.2 ∧ p.1.signatures ≠ [] then
        astore cache (p.1.message.recent_blockhash, p.1.signatures.headD 0)
          (b.slot, p.2)
      else cache)
    b.status_cache
  { b with status_cache := cache }

/-- The loop body of `Bank::filter_program_errors_and_collect_fee` (bank.rs
lines 714-737): walk the transactions zipped with their execution results,
accumulating fees; on `InstructionError` withdraw the fee from
`account_keys[0]` (the `?` turns a failed withdraw into that transaction's
result) and rewrite the result to `Ok`. -/
def Bank.collectFees (b : Bank) (fees : Nat) :
    List (Transaction × TxResult) → Bank × Nat × List TxResult
  | [] => (b, fees, [])
  | (tx, res) :: rest =>
    let fee := calculate_fee b.difs_per_signature tx.message
    match res with
    | .error (.InstructionError _ _) =>
      match b.withdraw (tx.message.account_keys.headD 0) fee with
      | .ok b1 =>
        let r := Bank.collectFees b1 (fees + fee) rest
        (r.1, r.2.1, .ok () :: r.2.2)
      | .error e =>
        let r := Bank.collectFees b fees rest
        (r.1, r.2.1, .error e :: r.2.2)
    | .ok _ =>
      let r := Bank.collectFees b (fees + fee) rest
      (r.1, r.2.1, .ok () :: r.2.2)
    | .error e =>
      let r := Bank.collectFees b fees rest
      (r.1, r.2.1, .error e :: r.2.2)

/-- `Bank::filter_program_errors_and_collect_fee` (bank.rs lines 709-740):
run the fee-collection loop, then deposit the accumulated fees to the bank's
`collector_id`. -/
def Bank.filter_program_errors_and_collect_fee (b : Bank)
    (txs : List Transaction) (executed : List TxResult) : Bank × List TxResult :=
  let r := b.collectFees 0 (txs.zip executed)
  (r.1.deposit b.collector_id r.2.1, r.2.2)

/-- Modelled from the spec: `Accounts::store_accounts` is not under `src/`.
§4.4 ("the write phase applies post-images atomically to the bank's slot")
and the in-source skip pattern of `Bank::store_stakes` (bank.rs lines
944-967: `if res[i].is_err() || raccs.is_err() { continue }`) give: for each
transaction whose execution result is `Ok` and whose load succeeded, store
the post-execution account images under the transaction's account keys. -/
def Bank.store_accounts (b : Bank) (txs : List Transaction)
    (executed : List TxResult) (loaded : List (Option (List Account))) : Bank :=
  ((txs.zip executed).zip loaded).foldl
    (fun bank p =>
      match p.1.2, p.2 with
      | .ok _, some accounts =>
        (p.1.1.message.account_keys.zip accounts).foldl
          (fun bk q => bk.store q.1 q.2) bank
      | _, _ => bank)
    b

/-- `Bank::commit_transactions` (bank.rs lines 742-773): set `is_delta` if
any result is committable, store the post-images, record statuses, then
filter program errors and collect fees, returning the rewritten results.
(The source's `store_stakes` call mutates only the stakes cache, a field not
carried by this `Bank` model; the `Stakes` cache is verified separately.) -/
def Bank.commit_transactions (b : Bank) (txs : List Transaction)
    (loaded : List (Option (List Account))) (executed : List TxResult) :
    Bank × List TxResult :=
  let b1 := { b with is_delta := b.is_delta || executed.any Bank.can_commit }
  let b2 := b1.store_accounts txs executed loaded
  let b3 := b2.update_transaction_statuses txs executed
  b3.filter_program_errors_and_collect_fee txs executed

/-- The `tx_count` loop of `Bank::load_and_execute_transactions` (bank.rs
lines 679-690): count the executed results that are `Ok`. -/
def executedTxCount (executed : List TxResult) : Nat :=
  executed.foldl (fun n r => if r.isOk then n + 1 else n) 0

/-- `Bank::increment_transaction_count` (bank.rs lines 879-882). -/
def Bank.increment_transaction_count (b : Bank) (tx_count : Nat) : Bank :=
  { b with transaction_count := b.transaction_count + tx_count }

/-- The transaction-count effect of `Bank::load_and_execute_transactions`
(bank.rs line 702): the counter advances by the number of `Ok` results. -/
def Bank.record_transaction_count (b : Bank) (executed : List TxResult) : Bank :=
  b.increment_transaction_count (executedTxCount executed)

/-- `Bank::is_frozen` (bank.rs lines 202-204): frozen iff the hash differs
from `Hash::default()` (modelled as `0`). -/
def Bank.is_frozen (b : Bank) : Bool := b.hash ≠ 0

/-- `Bank::hash_internal_state` (bank.rs lines 903-912), parameterized by the
digest functions whose code is not under `src/`: `H` models
`extend_and_hash(parent_hash, ·)` and `dh` the accounts-delta digest
`accounts.hash_internal_state(slot)`.  If no account was written at this slot
the parent's hash is returned unchanged. -/
def Bank.hash_internal_state (H : Hash → Hash → Hash)
    (dh : List (Pubkey × Account) → Hash) (b : Bank) : Hash :=
  if b.slotWrites = [] then b.parent_hash
  else H b.parent_hash (dh b.slotWrites)

/-- The syscall account id `slot_hashes::id()`; a fixed pubkey. -/
def slotHashesId : Pubkey := 700

/-- Modelled from the spec: `slot_hashes::create_account` and the
`SlotHashes` encoding are not under `src/`.  The account's data is the list
of `(slot, hash)` records, flattened; `SlotHashes::add` prepends a record. -/
def slotHashesAdd (data : List Nat) (slot : Nat) (hash : Hash) : List Nat :=
  slot :: hash :: data

/-- `Bank::update_slot_hashes` (bank.rs lines 206-216): read (or create) the
on-chain `slot_hashes` account, add the bank's `(slot, hash)` record, store
it back. -/
def Bank.update_slot_hashes (b : Bank) : Bank :=
  let account := (b.get_account slotHashesId).getD
    { Account.default with difs := 1, owner := slotHashesId }
  b.store slotHashesId
    { account with data := slotHashesAdd account.data b.slot b.hash }

/-- `Bank::set_hash` (bank.rs lines 218-228): one-way transition; returns
whether the hash was set by this call. -/
def Bank.set_hash (H : Hash → Hash → Hash)
    (dh : List (Pubkey × Account) → Hash) (b : Bank) : Bank × Bool :=
  if b.hash = 0 then
    ({ b with hash := b.hash_internal_state H dh }, true)
  else (b, false)

/-- `Bank::freeze` (bank.rs lines 230-234). -/
def Bank.freeze (H : Hash → Hash → Hash)
    (dh : List (Pubkey × Account) → Hash) (b : Bank) : Bank :=
  let r := b.set_hash H dh
  if r.2 then r.1.update_slot_hashes else r.1

/-- `Bank::register_tick` (bank.rs lines 404-422): bump the tick height and,
at the slot-final tick, register the hash in the blockhash queue (the queue,
not under `src/`, is modelled from §4.1 as an ordered list, newest first). -/
def Bank.register_tick (b : Bank) (hash : Hash) : Bank :=
  let b1 := { b with tick_height := b.tick_height + 1 }
  if b1.tick_height % b1.ticks_per_slot = b1.ticks_per_slot - 1 then
    { b1 with blockhash_queue := hash :: b1.blockhash_queue }
  else b1

/-- `Bank::is_votable` (bank.rs lines 990-993). -/
def Bank.is_votable (b : Bank) : Bool :=
  b.is_delta && b.tick_height = (b.slot + 1) * b.ticks_per_slot - 1

/-- The fields of `GenesisBlock` (`morgan_sdk::genesis_block`, not under
`src/`; modelled from §6 of the spec) that `Bank::process_genesis_block`
reads. -/
structure GenesisBlock : Type where
  bootstrap_leader_pubkey : Pubkey
  accounts : List (Pubkey × Account)
  ticks_per_slot : Nat
  difs_per_signature : Nat
  hash : Hash
  deriving DecidableEq, Repr

/-- `native_loader::create_loadable_account` (not under `src/`): an
executable account owned by the native loader, holding the program name. -/
def create_loadable_account : Account :=
  { Account.default with difs := 1, executable := true, owner := 800 }

/-- `Bank::register_native_instruction_processor` (bank.rs lines 319-323). -/
def Bank.register_native_instruction_processor (b : Bank) (program_id : Pubkey) : Bank :=
  b.store program_id create_loadable_account

/-- `Bank::process_genesis_block` (bank.rs lines 273-317): install the
genesis accounts, seed the blockhash queue, set tick geometry, mark
`is_delta = true` ("make bank 0 votable"), and register the mandatory native
program processors (system program, bpf loader, vote program — fixed ids in
this model). -/
def Bank.process_genesis_block (b : Bank) (genesis_block : GenesisBlock) : Bank :=
  let b1 := { b with
    collector_id := genesis_block.bootstrap_leader_pubkey
    difs_per_signature := genesis_block.difs_per_signature }
  let b2 := genesis_block.accounts.foldl (fun bk p => bk.store p.1 p.2) b1
  let b3 := { b2 with
    blockhash_queue := [genesis_block.hash]
    ticks_per_slot := genesis_block.ticks_per_slot
    max_tick_height := (b2.slot + 1) * genesis_block.ticks_per_slot - 1
    is_delta := true }
  ((b3.register_native_instruction_processor 900
    ).register_native_instruction_processor 901
    ).register_native_instruction_processor 902

/-- `Bank::new` / `new_with_paths` (bank.rs lines 112-130), restricted to the
modelled fields (the epoch-stakes seeding touches only the stakes caches). -/
def Bank.new (genesis_block : GenesisBlock) : Bank :=
  Bank.default.process_genesis_block genesis_block

/-- `Bank::new_from_parent` (bank.rs lines 133-184): freeze the parent, then
inherit queue, status cache, fee calculator, counters and tick geometry; the
child starts with an empty slot lane over the frozen parent's view, and
`is_delta` stays at its `Default` value `false`. -/
def Bank.new_from_parent (H : Hash → Hash → Hash)
    (dh : List (Pubkey × Account) → Hash) (parent : Bank)
    (collector_id : Pubkey) (slot : Nat) : Bank :=
  let p := parent.freeze H dh
  { Bank.default with
    blockhash_queue := p.blockhash_queue
    status_cache := p.status_cache
    bank_height := p.bank_height + 1
    difs_per_signature := p.difs_per_signature
    transaction_count := p.transaction_count
    tick_height := p.tick_height
    ticks_per_slot := p.ticks_per_slot
    slot := slot
    max_tick_height := (slot + 1) * p.ticks_per_slot - 1
    parent_hash := p.hash
    collector_id := collector_id
    slotWrites := []
    parentAccounts := p.slotWrites ++ p.parentAccounts }

/-! ### System instruction processor
(`src/runtime/src/system_instruction_processor.rs`, over the
`morgan_interface` account type whose reputation counter is named
`reputations`). -/

/-- `Account` from `src/interface` (used by the system instruction
processor): the reputation counter is the named field `reputations`. -/
structure IAccount : Type where
  difs : Nat
  reputations : Nat
  data : List Nat
  owner : Pubkey
  executable : Bool
  deriving DecidableEq, Repr

/-- `SystemError` from `src/interface/src/system_instruction.rs`; the
`e as u32` discriminants are its constructor order. -/
inductive SystemError : Type where
  | AccountAlreadyInUse
  | ResultWithNegativeDifs
  | SourceNotSystemAccount
  | ResultWithNegativeReputations
  deriving DecidableEq, Repr

/-- `e as u32` on `SystemError`. -/
def SystemError.toU32 : SystemError → Nat
  | .AccountAlreadyInUse => 0
  | .ResultWithNegativeDifs => 1
  | .SourceNotSystemAccount => 2
  | .ResultWithNegativeReputations => 3

/-- `InstructionError` outcomes produced by the system instruction
processor (`morgan_interface::instruction`). -/
inductive InstrError : Type where
  | MissingRequiredSignature
  | IncorrectProgramId
  | InvalidInstructionData
  | CustomError (code : Nat)
  deriving DecidableEq, Repr

/-- `SystemInstruction` from `src/interface/src/system_instruction.rs`. -/
inductive SystemInstruction : Type where
  | CreateAccount (difs reputations space : Nat) (program_id : Pubkey)
  | Assign (program_id : Pubkey)
  | Transfer (difs : Nat)
  | CreateAccountWithReputation (reputations space : Nat) (program_id : Pubkey)
  | TransferReputations (reputations : Nat)
  deriving DecidableEq, Repr

/-- The system program id (`system_program::check_id`); a fixed pubkey. -/
def systemProgramId : Pubkey := 900

/-- `transfer_difs` (system_instruction_processor.rs lines 91-105).  The
instruction only references `keyed_accounts[0]` (source) and
`keyed_accounts[1]` (destination); the in-place mutation with early return
becomes a triple (result, source', destination').  The destination credit is
unguarded `u64` addition and is modelled as wrapping. -/
def transfer_difs (fromAccount toAccount : IAccount) (difs : Nat) :
    Except SystemError Unit × IAccount × IAccount :=
  if difs > fromAccount.difs then
    (.error .ResultWithNegativeDifs, fromAccount, toAccount)
  else
    (.ok (),
     { fromAccount with difs := fromAccount.difs - difs },
     { toAccount with difs := wrapAdd toAccount.difs difs })

/-- `transfer_reputations` (system_instruction_processor.rs lines 107-121). -/
def transfer_reputations (fromAccount toAccount : IAccount) (reputations : Nat) :
    Except SystemError Unit × IAccount × IAccount :=
  if reputations > fromAccount.reputations then
    (.error .ResultWithNegativeReputations, fromAccount, toAccount)
  else
    (.ok (),
     { fromAccount with reputations := fromAccount.reputations - reputations },
     { toAccount with reputations := wrapAdd toAccount.reputations reputations })

/-- `create_system_account` (system_instruction_processor.rs lines 11-46). -/
def create_system_account (fromAccount toAccount : IAccount)
    (difs reputations space : Nat) (program_id : Pubkey) :
    Except SystemError Unit × IAccount × IAccount :=
  if fromAccount.owner ≠ systemProgramId then
    (.error .SourceNotSystemAccount, fromAccount, toAccount)
  else if toAccount.data ≠ [] ∨ toAccount.owner ≠ systemProgramId then
    (.error .AccountAlreadyInUse, fromAccount, toAccount)
  else if difs > fromAccount.difs then
    (.error .ResultWithNegativeDifs, fromAccount, toAccount)
  else
    (.ok (),
     { fromAccount with difs := fromAccount.difs - difs },
     { toAccount with
        difs := wrapAdd toAccount.difs difs
        reputations := wrapAdd toAccount.reputations reputations
        owner := program_id
        data := List.replicate space 0
        executable := false })

/-- `process_instruction` (system_instruction_processor.rs lines 123-164)
for the two-account instructions, given the already-deserialized instruction
(`none` models a `bincode::deserialize` failure) and whether
`keyed_accounts[0]` carries a signature.  `Assign` and the create variants
are not needed by the claims below and are routed through the same
dispatch. -/
def process_instruction (instructionData : Option SystemInstruction)
    (fromSigned : Bool) (fromAccount toAccount : IAccount) :
    Except InstrError Unit × IAccount × IAccount :=
  match instructionData with
  | none => (.error .InvalidInstructionData, fromAccount, toAccount)
  | some instruction =>
    if !fromSigned then
      (.error .MissingRequiredSignature, fromAccount, toAccount)
    else
      let r :=
        match instruction with
        | .CreateAccount difs reputations space program_id =>
          create_system_account fromAccount toAccount difs reputations space program_id
        | .Transfer difs => transfer_difs fromAccount toAccount difs
        | .TransferReputations reputations =>
          transfer_reputations fromAccount toAccount reputations
        | _ => (.ok (), fromAccount, toAccount)
      match r.1 with
      | .ok _ => (.ok (), r.2)
      | .error e => (.error (.CustomError e.toU32), r.2)

/-! ### Replay stage: votable-bank generation and selection
(`src/core/src/replay_stage.rs`). -/

/-- The data of a frozen bank that `generate_votable_banks` consults; the
locktower predicates and the weight computation live in modules that only
feed this selection, so they are parameters of the selection functions. -/
structure RBank : Type where
  slot : Nat
  deriving DecidableEq, Repr

/-- Insertion of `x` in front of the first element of weight `≥ x`'s.  Under
the right fold below this realizes the unique behaviour of a stable
ascending sort — Rust's `sort_by_key(|b| b.0)` on `(u128, Bank)` pairs:
earlier elements stay in front of equal-weight later ones. -/
def insortByWeight (x : Nat × RBank) : List (Nat × RBank) → List (Nat × RBank)
  | [] => [x]
  | y :: ys => if x.1 ≤ y.1 then x :: y :: ys else y :: insortByWeight x ys

/-- `votable.sort_by_key(|b| b.0)`: a stable ascending sort by weight. -/
def sortByWeight (l : List (Nat × RBank)) : List (Nat × RBank) :=
  l.foldr insortByWeight []

/-- `ReplayStage::generate_votable_banks` (replay_stage.rs lines 402-473):
filter the frozen banks through the votability, recent-epoch, not-yet-voted,
not-locked-out and stake-threshold checks, pair each survivor with its
locktower weight, and sort ascending by weight.  `frozen` is the enumeration
of `bank_forks.frozen_banks()` — a `HashMap`, so its order is unspecified;
the predicates and `weight` model the locktower calls. -/
def generate_votable_banks (isVotable isRecentEpoch hasVoted isLockedOut
    voteThreshold : RBank → Bool) (weight : RBank → Nat)
    (frozen : List RBank) : List (Nat × RBank) :=
  sortByWeight
    ((((((frozen.filter isVotable).filter isRecentEpoch).filter
        (fun b => !hasVoted b)).filter (fun b => !isLockedOut b)).filter
        voteThreshold).map (fun b => (weight b, b)))

/-- The selection in `ReplayStage::new`'s replay loop (replay_stage.rs lines
139-142): `votable.last()`. -/
def selectVotableBank (isVotable isRecentEpoch hasVoted isLockedOut
    voteThreshold : RBank → Bool) (weight : RBank → Nat)
    (frozen : List RBank) : Option (Nat × RBank) :=
  (generate_votable_banks isVotable isRecentEpoch hasVoted isLockedOut
    voteThreshold weight frozen).getLast?

/-! ### Stakes cache (`src/runtime/src/stakes.rs`). -/

/-- The vote program id (`morgan_vote_api::check_id`); a fixed pubkey. -/
def voteProgramId : Pubkey := 902

/-- The stake program id (`morgan_stake_api::check_id`); a fixed pubkey. -/
def stakeProgramId : Pubkey := 903

/-- `StakeState::voter_pubkey_from` (src/programs/stake_api/src/stake_state.rs
lines 49-58): deserialize the account data and return the delegate's voter
pubkey if the state is `Delegate`.  The bincode encoding is modelled as: a
`Delegate { voter_pubkey }` state stores `voter_pubkey` at the head of the
account's data, any other state has empty data. -/
def voter_pubkey_from (account : Account) : Option Pubkey :=
  account.data.head?

/-- `Stakes` (stakes.rs lines 8-15). -/
structure Stakes : Type where
  vote_accounts : List (Pubkey × (Nat × Account))
  stake_accounts : List (Pubkey × Account)
  deriving DecidableEq, Repr

/-- `Stakes::calculate_stake` (stakes.rs lines 17-27): sum of the `difs` of
every stake account delegating to `voter_pubkey`. -/
def Stakes.calculate_stake (s : Stakes) (voter_pubkey : Pubkey) : Nat :=
  ((s.stake_accounts.filter
      (fun p => voter_pubkey_from p.2 = some voter_pubkey)).map
      (fun p => p.2.difs)).sum

/-- `Stakes::store` (stakes.rs lines 33-76). -/
def Stakes.store (s : Stakes) (pubkey : Pubkey) (account : Account) : Stakes :=
  if account.owner = voteProgramId then
    if account.difs = 0 then
      { s with vote_accounts := aremove s.vote_accounts pubkey }
    else
      let stake := match alookup s.vote_accounts pubkey with
        | some v => v.1
        | none => s.calculate_stake pubkey
      { s with vote_accounts := astore s.vote_accounts pubkey (stake, account) }
  else if account.owner = stakeProgramId then
    let old_stake := (alookup s.stake_accounts pubkey).bind
      (fun old_account => (voter_pubkey_from old_account).map
        (fun old_voter => (old_account.difs, old_voter)))
    let stake := (voter_pubkey_from account).map
      (fun voter => (account.difs, voter))
    let s1 :=
      if stake ≠ old_stake then
        let s0 := match old_stake with
          | some (old_difs, old_voter) =>
            { s with vote_accounts :=
                amodify (fun e => (wrapSub e.1 old_difs, e.2)) s.vote_accounts old_voter }
          | none => s
        match stake with
        | some (difs, voter) =>
          { s0 with vote_accounts :=
              amodify (fun e => (wrapAdd e.1 difs, e.2)) s0.vote_accounts voter }
        | none => s0
      else s
    if account.difs = 0 then
      { s1 with stake_accounts := aremove s1.stake_accounts pubkey }
    else
      { s1 with stake_accounts := astore s1.stake_accounts pubkey account }
  else s

/-- The status-cache key of a transaction:
`(message.recent_blockhash, signatures[0])`. -/
def txStatusKey (tx : Transaction) : Hash × Nat :=
  (tx.message.recent_blockhash, tx.signatures.headD 0)

/-- The status-cache fold of `Bank.update_transaction_statuses`, abstracted
over the writing slot so it can be reasoned about by induction. -/
def statusFold (slot : Nat) (cache : List ((Hash × Nat) × (Nat × TxResult)))
    (l : List (Transaction × TxResult)) : List ((Hash × Nat) × (Nat × TxResult)) :=
  l.foldl
    (fun cache p =>
      if Bank.can_commit p.2 ∧ p.1.signatures ≠ [] then
        astore cache (p.1.message.recent_blockhash, p.1.signatures.headD 0)
          (slot, p.2)
      else cache)
    cache

/-- Whether a result is `Err(TransactionError::InstructionError(..))`. -/
def isInstructionError : TxResult → Bool
  | .error (.InstructionError _ _) => true
  | _ => false

/-- `message.account_keys[0]`: the fee payer. -/
def txPayer (tx : Transaction) : Pubkey := tx.message.account_keys.headD 0

/-- The payers of the transactions whose result is `InstructionError`. -/
def iePayers (l : List (Transaction × TxResult)) : List Pubkey :=
  (l.filter (fun p => isInstructionError p.2)).map (fun p => txPayer p.1)

/-- Sum of the fees of the committable (`Ok` or `InstructionError`)
transactions: the amount `filter_program_errors_and_collect_fee` accumulates
when every fee withdrawal succeeds. -/
def committableFees (dps : Nat) (l : List (Transaction × TxResult)) : Nat :=
  ((l.filter (fun p => Bank.can_commit p.2)).map
    (fun p => calculate_fee dps p.1.message)).sum

/-- The per-transaction result rewriting of
`filter_program_errors_and_collect_fee`: committable results come out `Ok`,
non-committable errors are returned unchanged. -/
def rewriteResult (r : TxResult) : TxResult :=
  if Bank.can_commit r then .ok () else r

/-- The account keys written by `store_accounts`: the keys of the loaded
post-images of the transactions whose execution result is `Ok`. -/
def storedKeys (txs : List Transaction) (executed : List TxResult)
    (loaded : List (Option (List Account))) : List Pubkey :=
  ((txs.zip executed).zip loaded).flatMap
    (fun p =>
      match p.1.2, p.2 with
      | .ok _, some accounts => (p.1.1.message.account_keys.zip accounts).map Prod.fst
      | _, _ => [])

/-! ### Concrete instances used by counterexamples and witnesses. -/

/-- A bank holding one account whose reputation counter `difs1` is smaller
than its balance `difs` — reachable, because a system `Transfer` moves only
`difs` (system_instruction_processor.rs lines 91-105), so a transfer
recipient has `difs > 0` with `difs1 = 0`. -/
def c2Bank : Bank :=
  { Bank.default with slotWrites := [(1, ⟨10, [], 900, false, 0⟩)] }

/-- A genesis block with one funded account and one tick per slot. -/
def c3Genesis : GenesisBlock :=
  { bootstrap_leader_pubkey := 5
    accounts := [(1, ⟨10000, [], 900, false, 10000⟩)]
    ticks_per_slot := 1
    difs_per_signature := 0
    hash := 42 }

/-- A concrete digest-extension function for C4. -/
def c4H (a d : Nat) : Nat := a + d + 1

/-- A concrete accounts-delta digest for C4. -/
def c4dh (l : List (Pubkey × Account)) : Nat := l.length

/-- An unfrozen bank with no account writes at its own slot. -/
def c4Bank : Bank := { Bank.default with parent_hash := 5 }

/-- A concrete digest-extension function for C5. -/
def c5H (a d : Nat) : Nat := a + d + 1

/-- A concrete accounts-delta digest for C5. -/
def c5dh (l : List (Pubkey × Account)) : Nat := l.length + 1

/-- An unfrozen bank with one account write at its own slot. -/
def c5Bank : Bank :=
  { Bank.default with parent_hash := 5, slotWrites := [(1, Account.default)] }

/-- A bank for the C1 witness: payer accounts at keys 1 and 3, a fee of 2
per signature, fees collected at key 5. -/
def c1Bank : Bank :=
  { Bank.default with
    slotWrites := [(1, ⟨100, [], 900, false, 100⟩), (3, ⟨50, [], 900, false, 50⟩)]
    collector_id := 5
    difs_per_signature := 2 }

/-- A transaction from payer 1 to key 2 that will execute `Ok`. -/
def c1Tx1 : Transaction :=
  { signatures := [31]
    message := { account_keys := [1, 2], recent_blockhash := 42, num_required_signatures := 1 } }

/-- A transaction from payer 3 to key 2 that will fail with an
`InstructionError`. -/
def c1Tx2 : Transaction :=
  { signatures := [32]
    message := { account_keys := [3, 2], recent_blockhash := 42, num_required_signatures := 1 } }

/-- Loaded post-images for the C1 witness: the `Ok` transaction moved 10
difs from key 1 to key 2; the failed transaction has no stored images. -/
def c1Loaded : List (Option (List Account)) :=
  [some [⟨90, [], 900, false, 100⟩, ⟨10, [], 900, false, 0⟩], none]

/-- Executed results for the C1 witness. -/
def c1Executed : List TxResult := [.ok (), .error (.InstructionError 0 1)]

/-- A committable transaction with one signature. -/
def c7Tx1 : Transaction :=
  { signatures := [11]
    message := { account_keys := [1, 2], recent_blockhash := 42, num_required_signatures := 1 } }

/-- A transaction that will fail with a non-committable error. -/
def c7Tx2 : Transaction :=
  { signatures := [22]
    message := { account_keys := [1, 3], recent_blockhash := 43, num_required_signatures := 1 } }

/-- A bank at slot 4 with an empty status cache. -/
def c7Bank : Bank := { Bank.default with slot := 4 }

/-- A source account for the C6 witness. -/
def c6From : IAccount := ⟨100, 0, [], 900, false⟩

/-- A destination account for the C6 witness. -/
def c6To : IAccount := ⟨1, 0, [], 905, false⟩

/-- A stakes cache for the C10 witness: one stake account (key 9) delegating
10 difs to the vote pubkey 7, nothing yet in `vote_accounts`. -/
def c10Stakes : Stakes :=
  { vote_accounts := []
    stake_accounts := [(9, ⟨10, [7], 903, false, 10⟩)] }

/-- A vote account (owned by the vote program) with a nonzero balance. -/
def c10VoteAccount : Account := ⟨5, [], 902, false, 5⟩

/-- The same vote account drained to zero difs. -/
def c10VoteAccountZero : Account := ⟨0, [], 902, false, 0⟩

/-! ### Helper lemmas on the bank model. -/

theorem Bank.get_account_store_self (b : Bank) (k : Pubkey) (a : Account) :
    (b.store k a).get_account k = some a := by
  simp [Bank.get_account, Bank.store, alookup_astore_self]

theorem Bank.get_account_store_ne (b : Bank) (k k0 : Pubkey) (a : Account)
    (h : k0 ≠ k) : (b.store k a).get_account k0 = b.get_account k0 := by
  simp [Bank.get_account, Bank.store, alookup_astore_ne _ _ _ _ h]

theorem Bank.get_balance_store_self (b : Bank) (k : Pubkey) (a : Account) :
    (b.store k a).get_balance k = a.difs := by
  simp [Bank.get_balance, Bank.get_account_store_self]

theorem Bank.get_balance_store_ne (b : Bank) (k k0 : Pubkey) (a : Account)
    (h : k0 ≠ k) : (b.store k a).get_balance k0 = b.get_balance k0 := by
  simp [Bank.get_balance, Bank.get_account_store_ne _ _ _ _ h]

/-- A projection that `Bank.store` leaves unchanged is unchanged by any
left fold of stores and by the fee-collection loop; used to carry the
metadata fields (`collector_id`, `is_delta`, `difs_per_signature`, ...)
through the commit pipeline. -/
theorem foldl_proj {α β γ : Type} (f : γ → β → γ) (proj : γ → α)
    (hf : ∀ c x, proj (f c x) = proj c) (l : List β) (c : γ) :
    proj (l.foldl f c) = proj c := by
  induction l generalizing c with
  | nil => rfl
  | cons x t ih => rw [List.foldl_cons, ih, hf]

theorem Bank.withdraw_ok_iff (b : Bank) (k : Pubkey) (n : Nat) (b1 : Bank) :
    b.withdraw k n = .ok b1 ↔
      ∃ acc, b.get_account k = some acc ∧ n ≤ acc.difs ∧
        b1 = b.store k
          { acc with difs := acc.difs - n, difs1 := wrapSub acc.difs1 n } := by
  unfold Bank.withdraw
  cases hacc : b.get_account k with
  | none => simp
  | some acc =>
    by_cases hgt : n > acc.difs
    · simp [hgt]
    · simp [hgt, eq_comm]
      omega

theorem Bank.withdraw_meta {α : Type} (proj : Bank → α)
    (hst : ∀ b k a, proj (Bank.store b k a) = proj b)
    (b : Bank) (k : Pubkey) (n : Nat) (b1 : Bank)
    (h : b.withdraw k n = .ok b1) : proj b1 = proj b := by
  obtain ⟨acc, -, -, rfl⟩ := (Bank.withdraw_ok_iff b k n b1).mp h
  exact hst _ _ _

theorem Bank.collectFees_meta {α : Type} (proj : Bank → α)
    (hst : ∀ b k a, proj (Bank.store b k a) = proj b) :
    ∀ (l : List (Transaction × TxResult)) (b : Bank) (fees : Nat),
      proj (Bank.collectFees b fees l).1 = proj b := by
  intro l
  induction l with
  | nil => intro b fees; rfl
  | cons p t ih =>
    intro b fees
    obtain ⟨tx, res⟩ := p
    match res with
    | .ok _ => simpa [Bank.collectFees] using ih b _
    | .error (.InstructionError i e) =>
      rw [Bank.collectFees]
      cases hw : b.withdraw (tx.message.account_keys.headD 0)
          (calculate_fee b.difs_per_signature tx.message) with
      | ok b1 =>
        simpa using (ih b1 _).trans (Bank.withdraw_meta proj hst b _ _ b1 hw)
      | error e1 => simpa using ih b _
    | .error .AccountNotFound => simpa [Bank.collectFees] using ih b _
    | .error .AccountInUse => simpa [Bank.collectFees] using ih b _
    | .error .AccountLoadedTwice => simpa [Bank.collectFees] using ih b _
    | .error .InsufficientFundsForFee => simpa [Bank.collectFees] using ih b _
    | .error .InvalidAccountForFee => simpa [Bank.collectFees] using ih b _
    | .error .InvalidAccountIndex => simpa [Bank.collectFees] using ih b _
    | .error .BlockhashNotFound => simpa [Bank.collectFees] using ih b _
    | .error .DuplicateSignature => simpa [Bank.collectFees] using ih b _

theorem Bank.store_accounts_meta {α : Type} (proj : Bank → α)
    (hst : ∀ b k a, proj (Bank.store b k a) = proj b)
    (b : Bank) (txs : List Transaction) (executed : List TxResult)
    (loaded : List (Option (List Account))) :
    proj (b.store_accounts txs executed loaded) = proj b := by
  unfold Bank.store_accounts
  refine foldl_proj _ proj ?_ _ b
  intro c x
  match x with
  | ((tx, .ok u), some accounts) =>
    exact foldl_proj _ proj (fun c (q : Pubkey × Account) => hst c q.1 q.2) _ c
  | ((tx, .ok u), none) => rfl
  | ((tx, .error e), la) => cases la <;> rfl

/-! ### C1 — fee handling in `Bank::commit_transactions`. -/

theorem isInstructionError_iff (r : TxResult) :
    isInstructionError r = true ↔ ∃ i e, r = .error (.InstructionError i e) := by
  match r with
  | .ok () => simp [isInstructionError]
  | .error (.InstructionError i e) => simp [isInstructionError]
  | .error .AccountNotFound => simp [isInstructionError]
  | .error .AccountInUse => simp [isInstructionError]
  | .error .AccountLoadedTwice => simp [isInstructionError]
  | .error .InsufficientFundsForFee => simp [isInstructionError]
  | .error .InvalidAccountForFee => simp [isInstructionError]
  | .error .InvalidAccountIndex => simp [isInstructionError]
  | .error .BlockhashNotFound => simp [isInstructionError]
  | .error .DuplicateSignature => simp [isInstructionError]

theorem can_commit_error (e : TransactionError) :
    Bank.can_commit (.error e) = isInstructionError (.error e) := by
  cases e <;> rfl

theorem collectFees_cons_ok (b : Bank) (fees : Nat) (tx : Transaction)
    (t : List (Transaction × TxResult)) :
    Bank.collectFees b fees ((tx, .ok ()) :: t) =
      ((Bank.collectFees b (fees + calculate_fee b.difs_per_signature tx.message) t).1,
       (Bank.collectFees b (fees + calculate_fee b.difs_per_signature tx.message) t).2.1,
       .ok () ::
         (Bank.collectFees b (fees + calculate_fee b.difs_per_signature tx.message) t).2.2) :=
  rfl

theorem collectFees_cons_ie (b : Bank) (fees : Nat) (tx : Transaction) (i e : Nat)
    (t : List (Transaction × TxResult)) (b1 : Bank)
    (hw : b.withdraw (tx.message.account_keys.headD 0)
      (calculate_fee b.difs_per_signature tx.message) = .ok b1) :
    Bank.collectFees b fees ((tx, .error (.InstructionError i e)) :: t) =
      ((Bank.collectFees b1 (fees + calculate_fee b.difs_per_signature tx.message) t).1,
       (Bank.collectFees b1 (fees + calculate_fee b.difs_per_signature tx.message) t).2.1,
       .ok () ::
         (Bank.collectFees b1 (fees + calculate_fee b.difs_per_signature tx.message) t).2.2) := by
  rw [Bank.collectFees, hw]

theorem collectFees_cons_err (b : Bank) (fees : Nat) (tx : Transaction)
    (t : List (Transaction × TxResult)) (e : TransactionError)
    (hne : isInstructionError (.error e) = false) :
    Bank.collectFees b fees ((tx, .error e) :: t) =
      ((Bank.collectFees b fees t).1, (Bank.collectFees b fees t).2.1,
       .error e :: (Bank.collectFees b fees t).2.2) := by
  cases e <;> first
    | rfl
    | simp [isInstructionError] at hne

theorem iePayers_cons_ie (tx : Transaction) (r : TxResult)
    (t : List (Transaction × TxResult)) (h : isInstructionError r = true) :
    iePayers ((tx, r) :: t) = txPayer tx :: iePayers t := by
  simp [iePayers, h]

theorem iePayers_cons_not (tx : Transaction) (r : TxResult)
    (t : List (Transaction × TxResult)) (h : isInstructionError r = false) :
    iePayers ((tx, r) :: t) = iePayers t := by
  simp [iePayers, h]

theorem mem_iePayers_iff (l : List (Transaction × TxResult)) (k : Pubkey) :
    k ∈ iePayers l ↔
      ∃ p ∈ l, isInstructionError p.2 = true ∧ txPayer p.1 = k := by
  simp only [iePayers, List.mem_map, List.mem_filter]
  constructor
  · rintro ⟨⟨tx, r⟩, ⟨hp, hie⟩, hk⟩
    exact ⟨(tx, r), hp, hie, hk⟩
  · rintro ⟨⟨tx, r⟩, hp, hie, hk⟩
    exact ⟨(tx, r), ⟨hp, hie⟩, hk⟩

theorem committableFees_cons_commit (dps : Nat) (tx : Transaction) (r : TxResult)
    (t : List (Transaction × TxResult)) (h : Bank.can_commit r = true) :
    committableFees dps ((tx, r) :: t) =
      calculate_fee dps tx.message + committableFees dps t := by
  simp [committableFees, h]

theorem committableFees_cons_skip (dps : Nat) (tx : Transaction) (r : TxResult)
    (t : List (Transaction × TxResult)) (h : Bank.can_commit r = false) :
    committableFees dps ((tx, r) :: t) = committableFees dps t := by
  simp [committableFees, h]

theorem get_account_foldl_store_ne (k : Pubkey) :
    ∀ (pairs : List (Pubkey × Account)) (b : Bank),
      (∀ q ∈ pairs, q.1 ≠ k) →
      (pairs.foldl (fun bk q => bk.store q.1 q.2) b).get_account k =
        b.get_account k := by
  intro pairs
  induction pairs with
  | nil => intro b h; rfl
  | cons q t ih =>
    intro b h
    rw [List.foldl_cons, ih _ (fun r hr => h r (List.mem_cons_of_mem q hr)),
      Bank.get_account_store_ne _ _ _ _ (h q (List.mem_cons_self q t)).symm]

theorem foldl_store_accounts_get_ne (k : Pubkey) :
    ∀ (l : List ((Transaction × TxResult) × Option (List Account))) (b : Bank),
      k ∉ l.flatMap (fun p =>
        match p.1.2, p.2 with
        | .ok _, some accounts => (p.1.1.message.account_keys.zip accounts).map Prod.fst
        | _, _ => []) →
      (l.foldl (fun bank p =>
        match p.1.2, p.2 with
        | .ok _, some accounts =>
          (p.1.1.message.account_keys.zip accounts).foldl
            (fun bk q => bk.store q.1 q.2) bank
        | _, _ => bank) b).get_account k = b.get_account k := by
  intro l
  induction l with
  | nil => intro b h; rfl
  | cons p t ih =>
    intro b hk
    rw [List.flatMap_cons] at hk
    have hk1 : k ∉ t.flatMap _ := fun hmem => hk (List.mem_append_right _ hmem)
    have hk0 : k ∉ (match p.1.2, p.2 with
        | .ok _, some accounts => (p.1.1.message.account_keys.zip accounts).map Prod.fst
        | _, _ => ([] : List Pubkey)) :=
      fun hmem => hk (List.mem_append_left _ hmem)
    rw [List.foldl_cons, ih _ hk1]
    obtain ⟨⟨tx, res⟩, la⟩ := p
    match res, la with
    | .ok u, some accounts =>
      refine get_account_foldl_store_ne k _ b ?_
      intro q hq hqk
      exact hk0 (by
        subst hqk
        exact List.mem_map_of_mem Prod.fst hq)
    | .ok u, none => rfl
    | .error e, la => cases la <;> rfl

theorem Bank.store_accounts_get_ne (b : Bank) (txs : List Transaction)
    (executed : List TxResult) (loaded : List (Option (List Account))) (k : Pubkey)
    (hk : k ∉ storedKeys txs executed loaded) :
    (b.store_accounts txs executed loaded).get_account k = b.get_account k :=
  foldl_store_accounts_get_ne k ((txs.zip executed).zip loaded) b hk

theorem Bank.deposit_balance_ne (b : Bank) (k k0 : Pubkey) (n : Nat) (h : k0 ≠ k) :
    (b.deposit k n).get_balance k0 = b.get_balance k0 :=
  Bank.get_balance_store_ne _ _ _ _ h

theorem Bank.deposit_balance_self (b : Bank) (k : Pubkey) (n : Nat)
    (h : b.get_balance k + n < W) :
    (b.deposit k n).get_balance k = b.get_balance k + n := by
  unfold Bank.deposit
  cases hacc : b.get_account k with
  | none =>
    have hbal : b.get_balance k = 0 := by simp [Bank.get_balance, hacc]
    show (b.store k _).get_balance k = _
    rw [Bank.get_balance_store_self]
    show wrapAdd Account.default.difs n = _
    rw [hbal]
    exact wrapAdd_eq_add 0 n (by rw [hbal] at h; simpa using h)
  | some acc =>
    have hbal : b.get_balance k = acc.difs := by simp [Bank.get_balance, hacc]
    show (b.store k _).get_balance k = _
    rw [Bank.get_balance_store_self]
    show wrapAdd acc.difs n = _
    rw [hbal]
    exact wrapAdd_eq_add acc.difs n (by rw [hbal] at h; exact h)

/-- Master lemma for the fee-collection loop under the guarantees that hold
on a committed batch (payers of `InstructionError` transactions are funded
and pairwise distinct): results are rewritten, fees accumulate over the
committable transactions, accounts other than those payers are untouched,
and each such payer is debited exactly its fee. -/
theorem Bank.collectFees_spec (dps : Nat) :
    ∀ (l : List (Transaction × TxResult)) (b : Bank) (fees : Nat),
      b.difs_per_signature = dps →
      (∀ p ∈ l, isInstructionError p.2 = true →
        ∃ acc, b.get_account (txPayer p.1) = some acc ∧
          calculate_fee dps p.1.message ≤ acc.difs) →
      (iePayers l).Pairwise (fun x y => x ≠ y) →
      (Bank.collectFees b fees l).2.2 = l.map (fun p => rewriteResult p.2) ∧
      (Bank.collectFees b fees l).2.1 = fees + committableFees dps l ∧
      (∀ k, k ∉ iePayers l →
        (Bank.collectFees b fees l).1.get_account k = b.get_account k) ∧
      (∀ p ∈ l, isInstructionError p.2 = true →
        (Bank.collectFees b fees l).1.get_balance (txPayer p.1) =
          b.get_balance (txPayer p.1) - calculate_fee dps p.1.message) := by
  intro l
  induction l with
  | nil =>
    intro b fees hdps hpay hdist
    refine ⟨rfl, by simp [Bank.collectFees, committableFees], fun k _ => rfl, ?_⟩
    intro p hp
    exact absurd hp (List.not_mem_nil p)
  | cons hd t ih =>
    intro b fees hdps hpay hdist
    obtain ⟨tx, res⟩ := hd
    by_cases hie : isInstructionError res = true
    · obtain ⟨i, e, rfl⟩ := (isInstructionError_iff res).mp hie
      obtain ⟨acc, hacc, hfee⟩ :=
        hpay (tx, .error (.InstructionError i e)) (List.mem_cons_self _ _) hie
      have hw : ∃ b1, b.withdraw (tx.message.account_keys.headD 0)
          (calculate_fee b.difs_per_signature tx.message) = .ok b1 ∧
          b1 = b.store (txPayer tx)
            { acc with
                difs := acc.difs - calculate_fee dps tx.message
                difs1 := wrapSub acc.difs1 (calculate_fee dps tx.message) } := by
        refine ⟨_, ?_, rfl⟩
        rw [hdps]
        exact (Bank.withdraw_ok_iff b (txPayer tx) (calculate_fee dps tx.message) _).mpr
          ⟨acc, hacc, hfee, rfl⟩
      obtain ⟨b1, hw, hb1⟩ := hw
      rw [iePayers_cons_ie tx _ t hie] at hdist
      have hhead : ∀ y ∈ iePayers t, txPayer tx ≠ y :=
        fun y hy => List.rel_of_pairwise_cons hdist hy
      have hdist1 : (iePayers t).Pairwise (fun x y => x ≠ y) := hdist.of_cons
      have hnotmem : txPayer tx ∉ iePayers t := fun hmem => (hhead _ hmem) rfl
      have hb1get : ∀ k0, k0 ≠ txPayer tx → b1.get_account k0 = b.get_account k0 := by
        intro k0 hk0
        rw [hb1]
        exact Bank.get_account_store_ne _ _ _ _ hk0
      have hb1payer : ∀ q ∈ t, isInstructionError q.2 = true →
          txPayer q.1 ≠ txPayer tx := by
        intro q hq hieq
        have hmem : txPayer q.1 ∈ iePayers t :=
          (mem_iePayers_iff t _).mpr ⟨q, hq, hieq, rfl⟩
        exact fun hEq => (hhead _ hmem) hEq.symm
      have hpay1 : ∀ q ∈ t, isInstructionError q.2 = true →
          ∃ a0, b1.get_account (txPayer q.1) = some a0 ∧
            calculate_fee dps q.1.message ≤ a0.difs := by
        intro q hq hieq
        obtain ⟨a0, ha0, hf0⟩ := hpay q (List.mem_cons_of_mem _ hq) hieq
        exact ⟨a0, (hb1get _ (hb1payer q hq hieq)).trans ha0, hf0⟩
      have hdps1 : b1.difs_per_signature = dps := by rw [hb1]; exact hdps
      obtain ⟨ih1, ih2, ih3, ih4⟩ := ih b1 (fees + calculate_fee b.difs_per_signature tx.message) hdps1 hpay1 hdist1
      rw [collectFees_cons_ie b fees tx i e t b1 hw]
      refine ⟨?_, ?_, ?_, ?_⟩
      · rw [List.map_cons, ih1]
        simp [rewriteResult, Bank.can_commit]
      · rw [ih2,
          committableFees_cons_commit dps tx (.error (.InstructionError i e)) t rfl, hdps]
        omega
      · intro k hk
        rw [iePayers_cons_ie tx _ t hie] at hk
        have hk1 : k ≠ txPayer tx := fun h => hk (h ▸ List.mem_cons_self _ _)
        have hk2 : k ∉ iePayers t := fun h => hk (List.mem_cons_of_mem _ h)
        rw [ih3 k hk2]
        exact hb1get k hk1
      · intro q hq hieq
        rcases List.mem_cons.mp hq with heq | hmem
        · subst heq
          have hbeq : (Bank.collectFees b1
              (fees + calculate_fee b.difs_per_signature tx.message) t).1.get_balance
                (txPayer tx) = b1.get_balance (txPayer tx) := by
            simp [Bank.get_balance, ih3 _ hnotmem]
          rw [hbeq, hb1, Bank.get_balance_store_self]
          have hbal : b.get_balance (txPayer tx) = acc.difs := by
            simp [Bank.get_balance, hacc]
          rw [hbal]
        · rw [ih4 q hmem hieq]
          have hbeq : b1.get_balance (txPayer q.1) = b.get_balance (txPayer q.1) := by
            simp [Bank.get_balance, hb1get _ (hb1payer q hmem hieq)]
          rw [hbeq]
    · have hie0 : isInstructionError res = false := by simpa using hie
      match res, hie0 with
      | .ok (), _ =>
        rw [collectFees_cons_ok]
        have hdist1 : (iePayers t).Pairwise (fun x y => x ≠ y) := by
          rwa [iePayers_cons_not tx (.ok ()) t rfl] at hdist
        have hpay1 : ∀ q ∈ t, isInstructionError q.2 = true →
            ∃ a0, b.get_account (txPayer q.1) = some a0 ∧
              calculate_fee dps q.1.message ≤ a0.difs :=
          fun q hq hieq => hpay q (List.mem_cons_of_mem _ hq) hieq
        obtain ⟨ih1, ih2, ih3, ih4⟩ := ih b
          (fees + calculate_fee b.difs_per_signature tx.message) hdps hpay1 hdist1
        refine ⟨?_, ?_, ?_, ?_⟩
        · rw [List.map_cons, ih1]
          simp [rewriteResult, Bank.can_commit]
        · rw [ih2, committableFees_cons_commit dps tx (.ok ()) t rfl, hdps]
          omega
        · intro k hk
          rw [iePayers_cons_not tx (.ok ()) t rfl] at hk
          exact ih3 k hk
        · intro q hq hieq
          rcases List.mem_cons.mp hq with heq | hmem
          · rw [heq] at hieq
            simp [isInstructionError] at hieq
          · exact ih4 q hmem hieq
      | .error e, hie0 =>
        rw [collectFees_cons_err b fees tx t e hie0]
        have hcc : Bank.can_commit (Except.error e) = false :=
          (can_commit_error e).trans hie0
        have hdist1 : (iePayers t).Pairwise (fun x y => x ≠ y) := by
          rwa [iePayers_cons_not tx (.error e) t hie0] at hdist
        have hpay1 : ∀ q ∈ t, isInstructionError q.2 = true →
            ∃ a0, b.get_account (txPayer q.1) = some a0 ∧
              calculate_fee dps q.1.message ≤ a0.difs :=
          fun q hq hieq => hpay q (List.mem_cons_of_mem _ hq) hieq
        obtain ⟨ih1, ih2, ih3, ih4⟩ := ih b fees hdps hpay1 hdist1
        refine ⟨?_, ?_, ?_, ?_⟩
        · rw [List.map_cons, ih1]
          simp [rewriteResult, hcc]
        · rw [ih2, committableFees_cons_skip dps tx (.error e) t hcc]
        · intro k hk
          rw [iePayers_cons_not tx (.error e) t hie0] at hk
          exact ih3 k hk
        · intro q hq hieq
          rcases List.mem_cons.mp hq with heq | hmem
          · rw [heq] at hieq
            rw [hieq] at hie0
            cases hie0
          · exact ih4 q hmem hieq

/-- C1: on a batch committed via `commit_transactions`, under the guarantees
the bank establishes before committing (each `InstructionError` payer exists
and can cover its fee — `load_accounts` checked the fee and account locks
keep the payer untouched —, payers are pairwise distinct and distinct from
the collector, the stored post-images of `Ok` transactions touch neither
those payers nor the collector, and the collector's deposit does not
overflow): every `InstructionError` transaction has exactly its fee
`calculate_fee(message)` withdrawn from its first account key, every account
other than the debited payers, the collector and the `Ok` post-image keys is
unchanged, the sum of the fees of `InstructionError` and `Ok` transactions
is deposited to `collector_id`, and the returned results rewrite
`InstructionError` to `Ok` while preserving the other errors. -/
theorem commit_fee_on_instruction_error (b : Bank) (txs : List Transaction)
    (loaded : List (Option (List Account))) (executed : List TxResult)
    (h1 : ∀ p ∈ txs.zip executed, isInstructionError p.2 = true →
      (b.get_account (txPayer p.1)).isSome = true ∧
      calculate_fee b.difs_per_signature p.1.message ≤ b.get_balance (txPayer p.1))
    (h2 : (iePayers (txs.zip executed)).Pairwise (fun x y => x ≠ y))
    (h3 : ∀ p ∈ txs.zip executed, isInstructionError p.2 = true →
      txPayer p.1 ∉ storedKeys txs executed loaded ∧ txPayer p.1 ≠ b.collector_id)
    (h4 : b.collector_id ∉ storedKeys txs executed loaded)
    (h5 : b.get_balance b.collector_id +
      committableFees b.difs_per_signature (txs.zip executed) < W) :
    (Bank.commit_transactions b txs loaded executed).2 =
      (txs.zip executed).map (fun p => rewriteResult p.2) ∧
    (∀ p ∈ txs.zip executed, isInstructionError p.2 = true →
      (Bank.commit_transactions b txs loaded executed).1.get_balance (txPayer p.1) =
        b.get_balance (txPayer p.1) -
          calculate_fee b.difs_per_signature p.1.message) ∧
    (∀ k, k ∉ iePayers (txs.zip executed) → k ≠ b.collector_id →
      k ∉ storedKeys txs executed loaded →
      (Bank.commit_transactions b txs loaded executed).1.get_balance k =
        b.get_balance k) ∧
    (Bank.commit_transactions b txs loaded executed).1.get_balance b.collector_id =
      b.get_balance b.collector_id +
        committableFees b.difs_per_signature (txs.zip executed) := by
  set b3 : Bank :=
    (({ b with is_delta := b.is_delta || executed.any Bank.can_commit
      } : Bank).store_accounts txs executed loaded).update_transaction_statuses
      txs executed with hb3def
  have hR1 : (Bank.commit_transactions b txs loaded executed).1 =
      (b3.collectFees 0 (txs.zip executed)).1.deposit b3.collector_id
        (b3.collectFees 0 (txs.zip executed)).2.1 := rfl
  have hR2 : (Bank.commit_transactions b txs loaded executed).2 =
      (b3.collectFees 0 (txs.zip executed)).2.2 := rfl
  have hb3col : b3.collector_id = b.collector_id :=
    Bank.store_accounts_meta Bank.collector_id (fun _ _ _ => rfl) _ txs executed loaded
  have hb3dps : b3.difs_per_signature = b.difs_per_signature :=
    Bank.store_accounts_meta Bank.difs_per_signature (fun _ _ _ => rfl) _ txs
      executed loaded
  have hb3get : ∀ k, k ∉ storedKeys txs executed loaded →
      b3.get_account k = b.get_account k := by
    intro k hk
    exact Bank.store_accounts_get_ne _ txs executed loaded k hk
  have hb3bal : ∀ k, k ∉ storedKeys txs executed loaded →
      b3.get_balance k = b.get_balance k := by
    intro k hk
    simp [Bank.get_balance, hb3get k hk]
  have hpay3 : ∀ p ∈ txs.zip executed, isInstructionError p.2 = true →
      ∃ acc, b3.get_account (txPayer p.1) = some acc ∧
        calculate_fee b.difs_per_signature p.1.message ≤ acc.difs := by
    intro p hp hie
    obtain ⟨hsome, hfee⟩ := h1 p hp hie
    obtain ⟨acc, hacc⟩ := Option.isSome_iff_exists.mp hsome
    refine ⟨acc, (hb3get _ (h3 p hp hie).1).trans hacc, ?_⟩
    have hbal : b.get_balance (txPayer p.1) = acc.difs := by
      simp [Bank.get_balance, hacc]
    rw [hbal] at hfee
    exact hfee
  obtain ⟨m1, m2, m3, m4⟩ :=
    Bank.collectFees_spec b.difs_per_signature (txs.zip executed) b3 0 hb3dps
      hpay3 h2
  have hcolnot : b.collector_id ∉ iePayers (txs.zip executed) := by
    intro hmem
    obtain ⟨p, hp, hie, hpk⟩ := (mem_iePayers_iff _ _).mp hmem
    exact (h3 p hp hie).2 hpk
  have hfees : (b3.collectFees 0 (txs.zip executed)).2.1 =
      committableFees b.difs_per_signature (txs.zip executed) := by
    simpa using m2
  have hSbal : (b3.collectFees 0 (txs.zip executed)).1.get_balance b.collector_id =
      b.get_balance b.collector_id := by
    simp [Bank.get_balance, m3 _ hcolnot, hb3get _ h4]
  refine ⟨?_, ?_, ?_, ?_⟩
  · rw [hR2]
    exact m1
  · intro p hp hie
    rw [hR1, hb3col, Bank.deposit_balance_ne _ _ _ _ (h3 p hp hie).2,
      m4 p hp hie, hb3bal _ (h3 p hp hie).1]
  · intro k hk hkc hks
    rw [hR1, hb3col, Bank.deposit_balance_ne _ _ _ _ hkc]
    have hbeq : (b3.collectFees 0 (txs.zip executed)).1.get_balance k =
        b3.get_balance k := by
      simp [Bank.get_balance, m3 k hk]
    rw [hbeq, hb3bal k hks]
  · rw [hR1, hb3col, hfees,
      Bank.deposit_balance_self _ _ _ (by rw [hSbal]; exact h5), hSbal]

/-- C1 witness: a batch of one `Ok` transaction from payer 1 (post-images
stored at keys 1 and 2) and one `InstructionError` transaction from payer 3,
with `difs_per_signature = 2` and collector 5.  Payer 3 is debited exactly
its fee of 2, the collector receives both fees, and both results come out
`Ok`. -/
theorem commit_fee_on_instruction_error_witness :
    (Bank.commit_transactions c1Bank [c1Tx1, c1Tx2] c1Loaded c1Executed).2 =
      ([c1Tx1, c1Tx2].zip c1Executed).map (fun p => rewriteResult p.2) ∧
    (Bank.commit_transactions c1Bank [c1Tx1, c1Tx2] c1Loaded c1Executed).1.get_balance
      (txPayer c1Tx2) = c1Bank.get_balance (txPayer c1Tx2) -
        calculate_fee c1Bank.difs_per_signature c1Tx2.message ∧
    (Bank.commit_transactions c1Bank [c1Tx1, c1Tx2] c1Loaded c1Executed).1.get_balance
      c1Bank.collector_id = c1Bank.get_balance c1Bank.collector_id +
        committableFees c1Bank.difs_per_signature ([c1Tx1, c1Tx2].zip c1Executed) := by
  have h := commit_fee_on_instruction_error c1Bank [c1Tx1, c1Tx2] c1Loaded c1Executed
    (by decide) (by decide) (by decide) (by decide) (by decide)
  exact ⟨h.1, h.2.1 (c1Tx2, .error (.InstructionError 0 1)) (by decide) (by decide),
    h.2.2.2⟩

/-! ### C2 — `Bank::withdraw`. -/

/-- C2, counterexample.  The claim says a withdraw succeeds only when neither
counter would go below zero.  On an account with `difs = 10, difs1 = 0`
(reachable: a system `Transfer` credits only `difs`), `withdraw 5` succeeds,
and the unguarded `difs1 -= 5` wraps the reputation counter around to
`2^64 - 5`: the subtraction underflows, refuting the claim. -/
theorem withdraw_difs1_underflow_cex :
    Bank.withdraw c2Bank 1 5 =
      .ok { c2Bank with slotWrites := [(1, ⟨5, [], 900, false, 2 ^ 64 - 5⟩)] } ∧
    ¬ (5 : Nat) ≤ 0 := by
  constructor
  · decide
  · decide

/-- C2, amended: `Bank::withdraw(pubkey, n)` returns `AccountNotFound` when
no account exists, returns `InsufficientFundsForFee` (leaving every account
unchanged, as the error carries no state) when `n` exceeds the account's
`difs`, and otherwise subtracts `n` from both counters — `difs` exactly and
never below zero thanks to the guard, but `difs1` by an unguarded wrapping
subtraction that equals `difs1 - n` only when `n ≤ difs1`. -/
theorem withdraw_spec (b : Bank) (k : Pubkey) (n : Nat) :
    (b.get_account k = none → b.withdraw k n = .error .AccountNotFound) ∧
    (∀ acc, b.get_account k = some acc →
      (n > acc.difs → b.withdraw k n = .error .InsufficientFundsForFee) ∧
      (¬ n > acc.difs →
        b.withdraw k n = .ok (b.store k
          { acc with difs := acc.difs - n, difs1 := wrapSub acc.difs1 n }) ∧
        (acc.difs1 < W → n ≤ acc.difs1 → wrapSub acc.difs1 n = acc.difs1 - n))) := by
  refine ⟨fun h => by simp [Bank.withdraw, h], ?_⟩
  intro acc hacc
  refine ⟨fun hgt => by simp [Bank.withdraw, hacc, hgt], fun hle => ⟨?_, ?_⟩⟩
  · simp [Bank.withdraw, hacc, hle]
  · intro h1 h2
    exact wrapSub_eq_sub _ _ h1 h2

/-- C2 witness: the amended theorem applied at concrete inputs, covering the
missing-account, insufficient-funds and success cases. -/
theorem withdraw_spec_witness :
    Bank.withdraw c2Bank 2 1 = .error .AccountNotFound ∧
    Bank.withdraw c2Bank 1 11 = .error .InsufficientFundsForFee ∧
    Bank.withdraw c2Bank 1 4 = .ok (c2Bank.store 1 ⟨6, [], 900, false, wrapSub 0 4⟩) :=
  ⟨(withdraw_spec c2Bank 2 1).1 (by decide),
   (((withdraw_spec c2Bank 1 11).2 ⟨10, [], 900, false, 0⟩ (by decide)).1 (by decide)),
   ((((withdraw_spec c2Bank 1 4).2 ⟨10, [], 900, false, 0⟩ (by decide)).2 (by decide)).1)⟩

/-! ### C3 — `Bank::is_votable`. -/

/-- C3, counterexample.  `Bank::new` commits no transaction (its transaction
count is 0), yet the resulting genesis bank is votable: `process_genesis_block`
stores `is_delta = true` unconditionally ("make bank 0 votable", bank.rs line
290), so with one tick per slot the fresh bank already satisfies
`tick_height == max_tick_height` and `is_votable()` returns true — refuting
"a bank in which no transaction committed is not votable". -/
theorem is_votable_genesis_cex :
    (Bank.new c3Genesis).is_votable = true ∧
    (Bank.new c3Genesis).transaction_count = 0 := by
  constructor
  · decide
  · decide

/-- C3, amended: `is_votable()` returns true iff `is_delta` is set and the
tick height equals `(slot+1)·ticks_per_slot − 1`; `is_delta` is set by
`commit_transactions` exactly when some result is committable, starts `false`
on a bank created by `new_from_parent`, but is set unconditionally at genesis
— so bank 0 is votable without any committed transaction, while a
non-genesis bank with no committable commit is not. -/
theorem is_votable_spec :
    (∀ b : Bank, b.is_votable =
      (b.is_delta && decide (b.tick_height = (b.slot + 1) * b.ticks_per_slot - 1))) ∧
    (∀ (b : Bank) (txs : List Transaction) (loaded : List (Option (List Account)))
        (executed : List TxResult),
      (Bank.commit_transactions b txs loaded executed).1.is_delta =
        (b.is_delta || executed.any Bank.can_commit)) ∧
    (∀ (H : Hash → Hash → Hash) (dh : List (Pubkey × Account) → Hash)
        (parent : Bank) (cid : Pubkey) (slot : Nat),
      (Bank.new_from_parent H dh parent cid slot).is_delta = false) ∧
    (∀ gb : GenesisBlock, (Bank.new gb).is_delta = true) := by
  refine ⟨fun b => rfl, ?_, fun H dh parent cid slot => rfl, fun gb => rfl⟩
  intro b txs loaded executed
  show (Bank.deposit _ _ _).is_delta = _
  have hdep : ∀ (bb : Bank) (k : Pubkey) (n : Nat),
      (Bank.deposit bb k n).is_delta = bb.is_delta := fun _ _ _ => rfl
  rw [hdep, Bank.collectFees_meta Bank.is_delta (fun _ _ _ => rfl)]
  show (Bank.store_accounts _ _ _ _).is_delta = _
  rw [Bank.store_accounts_meta Bank.is_delta (fun _ _ _ => rfl)]

/-! ### C4 — the hash set by `Bank::freeze`. -/

/-- C4, counterexample.  On a bank with no account writes at its own slot,
`hash_internal_state` returns the bare `parent_hash` (bank.rs lines 905-908)
instead of `H(parent_hash ‖ accounts_delta_hash(slot))`: freezing `c4Bank`
(parent hash 5, empty delta) sets hash `5`, while the claimed digest under
the concrete `c4H`/`c4dh` is `6`. -/
theorem freeze_hash_empty_delta_cex :
    (Bank.freeze c4H c4dh c4Bank).hash = 5 ∧
    c4H c4Bank.parent_hash (c4dh c4Bank.slotWrites) = 6 ∧
    (5 : Nat) ≠ 6 := by
  refine ⟨by decide, by decide, by decide⟩

/-- C4, amended: the hash set by `freeze()` on an unfrozen bank equals
`H(parent_hash ‖ accounts_delta_hash(slot))` when at least one account was
written at the slot, and equals `parent_hash` unchanged otherwise; the first
freeze writes the `(slot, hash)` record at the head of the on-chain
`slot_hashes` account's data. -/
theorem freeze_hash_spec (H : Hash → Hash → Hash)
    (dh : List (Pubkey × Account) → Hash) (b : Bank) (h0 : b.hash = 0) :
    (b.freeze H dh).hash = Bank.hash_internal_state H dh b ∧
    Bank.hash_internal_state H dh b =
      (if b.slotWrites = [] then b.parent_hash else H b.parent_hash (dh b.slotWrites)) ∧
    (∃ a, (b.freeze H dh).get_account slotHashesId = some a ∧
      a.data.take 2 = [b.slot, (b.freeze H dh).hash]) := by
  have hfz : b.freeze H dh =
      Bank.update_slot_hashes { b with hash := Bank.hash_internal_state H dh b } := by
    simp [Bank.freeze, Bank.set_hash, h0]
  refine ⟨?_, rfl, ?_⟩
  · rw [hfz]; rfl
  · rw [hfz]
    refine ⟨_, Bank.get_account_store_self _ _ _, rfl⟩

/-- C4 witness: the amended theorem applied to the concrete empty-delta
bank. -/
theorem freeze_hash_spec_witness :
    (Bank.freeze c4H c4dh c4Bank).hash = Bank.hash_internal_state c4H c4dh c4Bank ∧
    Bank.hash_internal_state c4H c4dh c4Bank =
      (if c4Bank.slotWrites = [] then c4Bank.parent_hash
       else c4H c4Bank.parent_hash (c4dh c4Bank.slotWrites)) ∧
    (∃ a, (Bank.freeze c4H c4dh c4Bank).get_account slotHashesId = some a ∧
      a.data.take 2 = [c4Bank.slot, (Bank.freeze c4H c4dh c4Bank).hash]) :=
  freeze_hash_spec c4H c4dh c4Bank (by decide)

/-! ### C5 — idempotence of `Bank::freeze`. -/

/-- C5: `set_hash` is a one-way trip — once the bank's hash differs from
`Hash::default()`, a later `freeze()` changes nothing, so the hash keeps the
value computed by the first call and the `slot_hashes` account is updated
exactly once.  (The hypothesis rules out the degenerate digest value
`Hash::default()` itself, for which the source would treat the bank as still
unfrozen.) -/
theorem freeze_idempotent (H : Hash → Hash → Hash)
    (dh : List (Pubkey × Account) → Hash) (b : Bank)
    (h : b.hash ≠ 0 ∨ Bank.hash_internal_state H dh b ≠ 0) :
    Bank.freeze H dh (Bank.freeze H dh b) = Bank.freeze H dh b := by
  have hfrozen : ∀ c : Bank, c.hash ≠ 0 → c.freeze H dh = c := by
    intro c hc
    simp [Bank.freeze, Bank.set_hash, hc]
  by_cases h0 : b.hash = 0
  · have hne : Bank.hash_internal_state H dh b ≠ 0 := h.resolve_left (by simp [h0])
    have hfz : b.freeze H dh =
        Bank.update_slot_hashes { b with hash := Bank.hash_internal_state H dh b } := by
      simp [Bank.freeze, Bank.set_hash, h0]
    have hh : (b.freeze H dh).hash = Bank.hash_internal_state H dh b := by
      rw [hfz]; rfl
    exact hfrozen _ (by rw [hh]; exact hne)
  · rw [hfrozen b h0, hfrozen b h0]

/-- C5 witness: freezing the concrete one-write bank twice equals freezing it
once. -/
theorem freeze_idempotent_witness :
    Bank.freeze c5H c5dh (Bank.freeze c5H c5dh c5Bank) =
      Bank.freeze c5H c5dh c5Bank :=
  freeze_idempotent c5H c5dh c5Bank (Or.inr (by decide))

/-! ### C7 — status-cache insertion on commit. -/

theorem update_transaction_statuses_eq (b : Bank) (txs : List Transaction)
    (res : List TxResult) :
    b.update_transaction_statuses txs res =
      { b with status_cache := statusFold b.slot b.status_cache (txs.zip res) } := rfl

theorem statusFold_lookup_notmem (slot : Nat) :
    ∀ (l : List (Transaction × TxResult))
      (cache : List ((Hash × Nat) × (Nat × TxResult))) (k : Hash × Nat),
      (∀ p ∈ l, Bank.can_commit p.2 = true → p.1.signatures ≠ [] →
        txStatusKey p.1 ≠ k) →
      alookup (statusFold slot cache l) k = alookup cache k := by
  intro l
  induction l with
  | nil => intro cache k h; rfl
  | cons p t ih =>
    intro cache k h
    by_cases hins : Bank.can_commit p.2 ∧ p.1.signatures ≠ []
    · have hstep : statusFold slot cache (p :: t) =
          statusFold slot
            (astore cache (p.1.message.recent_blockhash, p.1.signatures.headD 0)
              (slot, p.2)) t := by
        simp [statusFold, hins]
      rw [hstep, ih _ k (fun q hq => h q (List.mem_cons_of_mem p hq))]
      exact alookup_astore_ne _ _ _ _ (h p (List.mem_cons_self p t) hins.1 hins.2).symm
    · have hstep : statusFold slot cache (p :: t) = statusFold slot cache t := by
        simp [statusFold, hins]
      rw [hstep]
      exact ih _ k (fun q hq => h q (List.mem_cons_of_mem p hq))

theorem statusFold_lookup_mem (slot : Nat) :
    ∀ (l : List (Transaction × TxResult))
      (cache : List ((Hash × Nat) × (Nat × TxResult))) (p : Transaction × TxResult),
      p ∈ l → Bank.can_commit p.2 = true → p.1.signatures ≠ [] →
      l.Pairwise (fun p q =>
        Bank.can_commit p.2 = true → p.1.signatures ≠ [] →
        Bank.can_commit q.2 = true → q.1.signatures ≠ [] →
        txStatusKey p.1 ≠ txStatusKey q.1) →
      alookup (statusFold slot cache l) (txStatusKey p.1) = some (slot, p.2) := by
  intro l
  induction l with
  | nil => intro cache p hp; cases hp
  | cons q t ih =>
    intro cache p hp hcommit hsig hpair
    rcases List.mem_cons.mp hp with heq | hmem
    · subst heq
      have hins : Bank.can_commit p.2 ∧ p.1.signatures ≠ [] := ⟨hcommit, hsig⟩
      have hstep : statusFold slot cache (p :: t) =
          statusFold slot (astore cache (txStatusKey p.1) (slot, p.2)) t := by
        simp [statusFold, txStatusKey, hins]
      rw [hstep]
      have hne : ∀ r ∈ t, Bank.can_commit r.2 = true → r.1.signatures ≠ [] →
          txStatusKey r.1 ≠ txStatusKey p.1 := by
        intro r hr hc hs
        exact fun hk => (List.rel_of_pairwise_cons hpair hr hcommit hsig hc hs) hk.symm
      rw [statusFold_lookup_notmem slot t _ _ hne]
      exact alookup_astore_self _ _ _
    · by_cases hins : Bank.can_commit q.2 ∧ q.1.signatures ≠ []
      · have hstep : statusFold slot cache (q :: t) =
            statusFold slot (astore cache (txStatusKey q.1) (slot, q.2)) t := by
          simp [statusFold, txStatusKey, hins]
        rw [hstep]
        exact ih _ p hmem hcommit hsig (List.Pairwise.sublist (List.sublist_cons_self q t) hpair)
      · have hstep : statusFold slot cache (q :: t) = statusFold slot cache t := by
          simp [statusFold, hins]
        rw [hstep]
        exact ih _ p hmem hcommit hsig (List.Pairwise.sublist (List.sublist_cons_self q t) hpair)

/-- C7: after `update_transaction_statuses` (the status-recording step of
`commit_transactions`), a transaction's `(recent_blockhash, signatures[0])`
entry maps to `(slot, result)` in the status cache whenever the transaction
has a signature and its result is committable (`Ok` or `InstructionError`),
and any key claimed by no committable signed transaction of the batch — in
particular the key of a transaction failing with `BlockhashNotFound`,
`DuplicateSignature` or `AccountInUse` — is exactly as in the cache before
the call (so an absent key stays absent).  The distinctness hypothesis
mirrors the uniqueness of first signatures within one committed batch. -/
theorem update_statuses_spec (b : Bank) (txs : List Transaction)
    (res : List TxResult)
    (hdist : (txs.zip res).Pairwise (fun p q =>
      Bank.can_commit p.2 = true → p.1.signatures ≠ [] →
      Bank.can_commit q.2 = true → q.1.signatures ≠ [] →
      txStatusKey p.1 ≠ txStatusKey q.1)) :
    (∀ p ∈ txs.zip res, Bank.can_commit p.2 = true → p.1.signatures ≠ [] →
      alookup (b.update_transaction_statuses txs res).status_cache
        (txStatusKey p.1) = some (b.slot, p.2)) ∧
    (∀ k : Hash × Nat,
      (∀ p ∈ txs.zip res, Bank.can_commit p.2 = true → p.1.signatures ≠ [] →
        txStatusKey p.1 ≠ k) →
      alookup (b.update_transaction_statuses txs res).status_cache k =
        alookup b.status_cache k) := by
  rw [update_transaction_statuses_eq]
  exact ⟨fun p hp hc hs => statusFold_lookup_mem b.slot _ _ p hp hc hs hdist,
         fun k hk => statusFold_lookup_notmem b.slot _ _ k hk⟩

/-- C7 witness: a batch of one committable signed transaction and one
transaction failing with `BlockhashNotFound`; the first occupies its status
slot, the second's key stays absent. -/
theorem update_statuses_spec_witness :
    alookup (c7Bank.update_transaction_statuses [c7Tx1, c7Tx2]
      [.ok (), .error .BlockhashNotFound]).status_cache (txStatusKey c7Tx1) =
      some (4, .ok ()) ∧
    alookup (c7Bank.update_transaction_statuses [c7Tx1, c7Tx2]
      [.ok (), .error .BlockhashNotFound]).status_cache (txStatusKey c7Tx2) =
      none := by
  have h := update_statuses_spec c7Bank [c7Tx1, c7Tx2]
    [.ok (), .error .BlockhashNotFound] (by decide)
  refine ⟨h.1 (c7Tx1, .ok ()) (by decide) (by decide) (by decide), ?_⟩
  exact (h.2 (txStatusKey c7Tx2) (by decide)).trans (by decide)

/-! ### C9 — `Bank::transaction_count` counts only `Ok` results. -/

/-- C9: the `tx_count` loop of `load_and_execute_transactions` counts exactly
the executed results that are `Ok` — an `InstructionError` result (which
still commits and pays its fee) does not increment the counter — and the
bank's transaction count advances by that number; in particular one `Ok`
next to one `InstructionError` counts 1, and two `Ok` count 2. -/
theorem transaction_count_ok_only :
    (∀ executed : List TxResult,
      executedTxCount executed = (executed.filter Except.isOk).length) ∧
    (∀ (b : Bank) (executed : List TxResult),
      (b.record_transaction_count executed).transaction_count =
        b.transaction_count + (executed.filter Except.isOk).length) ∧
    executedTxCount [.ok (), .error (.InstructionError 0 1)] = 1 ∧
    executedTxCount [.ok (), .ok ()] = 2 := by
  have haux : ∀ (l : List TxResult) (n : Nat),
      l.foldl (fun n r => if r.isOk then n + 1 else n) n =
        n + (l.filter Except.isOk).length := by
    intro l
    induction l with
    | nil => intro n; simp
    | cons r t ih =>
      intro n
      by_cases hr : r.isOk
      · simp [hr, ih]
        omega
      · simp [hr, ih]
  refine ⟨fun executed => by simpa using haux executed 0, ?_, by decide, by decide⟩
  intro b executed
  show b.transaction_count + executedTxCount executed = _
  rw [show executedTxCount executed = (executed.filter Except.isOk).length from
    by simpa using haux executed 0]

/-! ### C6 — the system `Transfer` instruction. -/

/-- C6: `transfer_difs` (and the `Transfer` arm of `process_instruction`,
which surfaces the failure as `CustomError(ResultWithNegativeDifs as u32)`,
i.e. code 1): when the requested difs exceed the source balance both
accounts are returned unchanged with the negative-balance error; otherwise
exactly the requested difs move from source to destination, preserving the
sum of the two balances as long as the destination credit does not overflow
`u64`. -/
theorem transfer_difs_spec (fromAccount toAccount : IAccount) (difs : Nat) :
    (difs > fromAccount.difs →
      transfer_difs fromAccount toAccount difs =
        (.error .ResultWithNegativeDifs, fromAccount, toAccount) ∧
      process_instruction (some (.Transfer difs)) true fromAccount toAccount =
        (.error (.CustomError 1), fromAccount, toAccount)) ∧
    (¬ difs > fromAccount.difs →
      transfer_difs fromAccount toAccount difs =
        (.ok (), { fromAccount with difs := fromAccount.difs - difs },
          { toAccount with difs := wrapAdd toAccount.difs difs }) ∧
      process_instruction (some (.Transfer difs)) true fromAccount toAccount =
        (.ok (), { fromAccount with difs := fromAccount.difs - difs },
          { toAccount with difs := wrapAdd toAccount.difs difs }) ∧
      (toAccount.difs + difs < W →
        wrapAdd toAccount.difs difs = toAccount.difs + difs ∧
        (fromAccount.difs - difs) + (toAccount.difs + difs) =
          fromAccount.difs + toAccount.difs)) := by
  constructor
  · intro h
    constructor
    · simp [transfer_difs, h]
    · simp [process_instruction, transfer_difs, h, SystemError.toU32]
  · intro h
    refine ⟨by simp [transfer_difs, h], by simp [process_instruction, transfer_difs, h], ?_⟩
    intro hW
    exact ⟨wrapAdd_eq_add _ _ hW, by omega⟩

/-- C6 witness: moving 50 of 100 succeeds and preserves the sum; moving 200
of 100 fails with the negative-balance error and changes nothing. -/
theorem transfer_difs_spec_witness :
    (transfer_difs c6From c6To 200 =
        (.error .ResultWithNegativeDifs, c6From, c6To) ∧
      process_instruction (some (.Transfer 200)) true c6From c6To =
        (.error (.CustomError 1), c6From, c6To)) ∧
    transfer_difs c6From c6To 50 =
      (.ok (), { c6From with difs := c6From.difs - 50 },
        { c6To with difs := wrapAdd c6To.difs 50 }) ∧
    (c6From.difs - 50) + (c6To.difs + 50) = c6From.difs + c6To.difs :=
  ⟨(transfer_difs_spec c6From c6To 200).1 (by decide),
   ((transfer_difs_spec c6From c6To 50).2 (by decide)).1,
   (((transfer_difs_spec c6From c6To 50).2 (by decide)).2.2 (by decide)).2⟩

/-! ### C8 — votable-bank selection in the replay stage. -/

theorem mem_insortByWeight (x y : Nat × RBank) (l : List (Nat × RBank)) :
    x ∈ insortByWeight y l ↔ x = y ∨ x ∈ l := by
  induction l with
  | nil => simp [insortByWeight]
  | cons z t ih =>
    by_cases h : y.1 ≤ z.1
    · simp [insortByWeight, h]
    · simp [insortByWeight, h, ih]
      tauto

theorem mem_sortByWeight (x : Nat × RBank) (l : List (Nat × RBank)) :
    x ∈ sortByWeight l ↔ x ∈ l := by
  induction l with
  | nil => simp [sortByWeight]
  | cons z t ih =>
    show x ∈ insortByWeight z (sortByWeight t) ↔ _
    rw [mem_insortByWeight, ih]
    simp

theorem insortByWeight_pairwise (x : Nat × RBank) :
    ∀ l : List (Nat × RBank), l.Pairwise (fun p q => p.1 ≤ q.1) →
      (insortByWeight x l).Pairwise (fun p q => p.1 ≤ q.1) := by
  intro l
  induction l with
  | nil => intro h; simp [insortByWeight]
  | cons z t ih =>
    intro h
    by_cases hle : x.1 ≤ z.1
    · rw [show insortByWeight x (z :: t) = x :: z :: t by simp [insortByWeight, hle]]
      refine List.Pairwise.cons ?_ h
      intro q hq
      rcases List.mem_cons.mp hq with rfl | hq
      · exact hle
      · exact le_trans hle (List.rel_of_pairwise_cons h hq)
    · rw [show insortByWeight x (z :: t) = z :: insortByWeight x t by
        simp [insortByWeight, hle]]
      refine List.Pairwise.cons ?_ (ih h.of_cons)
      intro q hq
      rcases (mem_insortByWeight q x t).mp hq with rfl | hq
      · omega
      · exact List.rel_of_pairwise_cons h hq

theorem sortByWeight_pairwise (l : List (Nat × RBank)) :
    (sortByWeight l).Pairwise (fun p q => p.1 ≤ q.1) := by
  induction l with
  | nil => simp [sortByWeight]
  | cons z t ih => exact insortByWeight_pairwise z (sortByWeight t) ih

theorem mem_of_getLast?_eq {α : Type} (l : List α) (z : α)
    (h : l.getLast? = some z) : z ∈ l := by
  obtain ⟨hne, heq⟩ := List.mem_getLast?_eq_getLast (show z ∈ l.getLast? from h)
  rw [heq]
  exact List.getLast_mem hne

theorem pairwise_le_getLast :
    ∀ (l : List (Nat × RBank)) (z : Nat × RBank),
      l.Pairwise (fun p q => p.1 ≤ q.1) → l.getLast? = some z →
      ∀ x ∈ l, x.1 ≤ z.1 := by
  intro l
  induction l with
  | nil => intro z h hz; cases hz
  | cons a t ih =>
    intro z h hz x hx
    cases t with
    | nil =>
      simp [List.getLast?] at hz
      rcases List.mem_singleton.mp hx with rfl
      rw [hz]
    | cons b t1 =>
      have hz1 : (b :: t1).getLast? = some z := by
        rw [← hz]
        rfl
      have hzmem : z ∈ b :: t1 := mem_of_getLast?_eq _ _ hz1
      rcases List.mem_cons.mp hx with rfl | hx1
      · exact List.rel_of_pairwise_cons h hzmem
      · exact ih z h.of_cons hz1 x hx1

/-- C8, counterexample.  Two frozen banks (slots 3 and 5) pass every filter
with equal weight 7; the selection (`votable.last()` after the stable
ascending `sort_by_key`) returns the bank of slot 5 — the candidate
enumerated last among the ties, not the one with the lower slot number 3.
(The enumeration order of `bank_forks.frozen_banks()` is a `HashMap`
iteration order, so no slot-based tie-break exists in the code at all; this
instance enumerates the frozen banks in ascending slot order.) -/
theorem votable_tie_break_cex :
    selectVotableBank (fun _ => true) (fun _ => true) (fun _ => false)
      (fun _ => false) (fun _ => true) (fun _ => 7) [⟨3⟩, ⟨5⟩] =
      some (7, ⟨5⟩) ∧ (5 : Nat) ≠ 3 := by
  constructor
  · rfl
  · decide

/-- C8, amended: the bank picked by the replay loop (`votable.last()` over
`generate_votable_banks`) is one of maximal computed weight among the
candidates that pass the votability, recent-epoch, not-yet-voted,
not-locked-out and stake-threshold filters; among equal-weight candidates
the one enumerated last by the frozen-banks map wins, which is not
guaranteed to be the lower slot. -/
theorem votable_max_weight (iv ire hv ilo vt : RBank → Bool) (w : RBank → Nat)
    (frozen : List RBank) (wb : Nat) (bk : RBank)
    (hsel : selectVotableBank iv ire hv ilo vt w frozen = some (wb, bk)) :
    wb = w bk ∧
    ∀ p ∈ generate_votable_banks iv ire hv ilo vt w frozen, p.1 ≤ wb := by
  have hmem : (wb, bk) ∈ generate_votable_banks iv ire hv ilo vt w frozen :=
    mem_of_getLast?_eq _ _ hsel
  constructor
  · have := (mem_sortByWeight (wb, bk) _).mp hmem
    obtain ⟨b0, -, hb0⟩ := List.mem_map.mp this
    exact (congrArg Prod.fst hb0.symm).trans (congrArg (fun q => w q.2) hb0.symm).symm
  · intro p hp
    exact pairwise_le_getLast _ (wb, bk) (sortByWeight_pairwise _) hsel p hp

/-- C8 witness: with weights equal to the slot numbers, the selected bank is
the unique maximal-weight candidate. -/
theorem votable_max_weight_witness :
    5 = (fun b : RBank => b.slot) ⟨5⟩ ∧
    ∀ p ∈ generate_votable_banks (fun _ => true) (fun _ => true) (fun _ => false)
      (fun _ => false) (fun _ => true) (fun b : RBank => b.slot) [⟨3⟩, ⟨5⟩],
      p.1 ≤ 5 :=
  votable_max_weight (fun _ => true) (fun _ => true) (fun _ => false)
    (fun _ => false) (fun _ => true) (fun b => b.slot) [⟨3⟩, ⟨5⟩] 5 ⟨5⟩ rfl

/-! ### C10 — the Stakes cache on vote-account stores. -/

/-- C10: storing a vote account (an account owned by the vote program) with
zero difs removes it from `vote_accounts`; storing it with nonzero difs
while absent re-inserts it with its stake recomputed by `calculate_stake` —
the sum of the difs of the stake accounts currently delegating to it, so a
vote account that disappears and reappears recovers its delegated stake —
while storing it when already present keeps the previously recorded stake
value unchanged. -/
theorem stakes_store_vote_spec (s : Stakes) (pubkey : Pubkey) (account : Account)
    (hown : account.owner = voteProgramId) :
    (account.difs = 0 →
      alookup (s.store pubkey account).vote_accounts pubkey = none) ∧
    (account.difs ≠ 0 → alookup s.vote_accounts pubkey = none →
      alookup (s.store pubkey account).vote_accounts pubkey =
        some (s.calculate_stake pubkey, account)) ∧
    (∀ st old, account.difs ≠ 0 →
      alookup s.vote_accounts pubkey = some (st, old) →
      alookup (s.store pubkey account).vote_accounts pubkey =
        some (st, account)) ∧
    s.calculate_stake pubkey =
      ((s.stake_accounts.filter
          (fun p => voter_pubkey_from p.2 = some pubkey)).map
        (fun p => p.2.difs)).sum := by
  refine ⟨?_, ?_, ?_, rfl⟩
  · intro h0
    simp [Stakes.store, hown, h0, alookup_aremove_self]
  · intro hne hnone
    simp [Stakes.store, hown, hne, hnone, alookup_astore_self]
  · intro st old hne hsome
    simp [Stakes.store, hown, hne, hsome, alookup_astore_self]

/-- C10 witness: a vote account backed by 10 delegated difs is stored,
removed by a zero-dif store, and re-stored — recovering stake 10 via
`calculate_stake`; a second store of a changed account keeps the recorded
stake. -/
theorem stakes_store_vote_spec_witness :
    alookup ((c10Stakes.store 7 c10VoteAccount).store 7
      c10VoteAccountZero).vote_accounts 7 = none ∧
    alookup (c10Stakes.store 7 c10VoteAccount).vote_accounts 7 =
      some (c10Stakes.calculate_stake 7, c10VoteAccount) ∧
    c10Stakes.calculate_stake 7 = 10 := by
  refine ⟨?_, ?_, by decide⟩
  · exact (stakes_store_vote_spec (c10Stakes.store 7 c10VoteAccount) 7
      c10VoteAccountZero (by decide)).1 (by decide)
  · exact ((stakes_store_vote_spec c10Stakes 7 c10VoteAccount (by decide)).2.1
      (by decide) (by decide))

end Morgan
